import Mathlib

/-!
Shallow embedding of the document-synchronization layer of
gschlitt/course-schedule-visualizer:

* the Electron main-process storage IPC handlers (`src/main/index.ts`:
  `storage:read`, `storage:write`, `storage:batchWrite`),
* the renderer-side storage client with its process-local version cache
  (`src/utils/storage.ts`), and
* the save path of `src/App.tsx` (generation-counter save serializer and
  the instructor/course history aggregate recomputation).

Filesystem state is modelled as an association list from file names to
files, each file carrying its parsed-or-unparsable content and an integer
modification time.  Modification times are assigned from a strictly
increasing store clock (the spec's assumption that the filesystem clock is
monotonic and of millisecond-or-finer resolution).  IO failures
(`writeFileSync` / `renameSync` throwing) are modelled by explicit fault
sets of path names; the handlers' `try`/`catch` blocks become case splits
on fault membership.  File names are modelled as an inductive type so that
distinct document names of the application are distinct values, and the
sibling temporary name `name + ".tmp"` is the injective constructor
`FName.tmp`.
-/

namespace Sched

/-- Document names used by the layer.  `sections year sem` stands for
`sections-<year>-<sem>.json`, the `*Json` constructors for the global
catalog documents, and `tmp base` for the sibling staging path
`base + ".tmp"` used by the batch commit. -/
inductive FName where
  | sections (year : Nat) (sem : String)
  | instructorsJson
  | coursesJson
  | yearsJson
  | settingsJson
  | tagsJson
  | tmp (base : FName)
  | other (s : String)
deriving DecidableEq

/-- A single meeting of a section (src/types.ts `Meeting`). -/
structure Meeting where
  day : String
  startTime : String
  endTime : String
deriving DecidableEq

/-- A schedule entry (src/types.ts `Section`; `workload` is the optional
numeric field used by the App.tsx history computation). -/
structure Section where
  id : String
  courseName : String
  sectionNumber : String
  instructor : String
  meetings : List Meeting
  location : String
  color : String
  tagIds : Option (List String)
  workload : Option Nat
deriving DecidableEq

/-- One record of an instructor's per-term history
(App.tsx save path, lines 153-155). -/
structure IEntry where
  courseName : String
  sectionNumber : String
  location : String
  workload : Option Nat
deriving DecidableEq

/-- One record of a course's per-term history (App.tsx, lines 165-167). -/
structure CEntry where
  sectionNumber : String
  instructor : String
  location : String
deriving DecidableEq

/-- An instructor (src/types.ts `Instructor`).  The optional `history`
record (term key to entry list) is modelled as an association list in
object-key insertion order; an absent record is the empty list. -/
structure Instructor where
  id : String
  name : String
  abbreviation : String
  history : List (String × List IEntry)
deriving DecidableEq, Inhabited

/-- A course (src/types.ts `Course`), with its per-term history. -/
structure Course where
  id : String
  title : String
  abbreviation : String
  history : List (String × List CEntry)
deriving DecidableEq

/-- Structured document payloads that the layer stores as JSON. -/
inductive Val where
  | sections (ss : List Section)
  | instructors (is : List Instructor)
  | courses (cs : List Course)
  | nums (ns : List Nat)
  | raw (s : String)
deriving DecidableEq

/-- Stored bytes of a document: either bytes that `JSON.parse` turns into
a structured value, or bytes it rejects. -/
inductive Content where
  | parsed (v : Val)
  | unparsable
deriving DecidableEq

/-- `JSON.parse` on stored content, as an `Option`. -/
def parseOpt : Content → Option Val
  | .parsed v => some v
  | .unparsable => none

/-- A file on disk: content plus modification time in integer
milliseconds. -/
structure File where
  content : Content
  mtime : Nat
deriving DecidableEq

/-- Association-list lookup (files on disk, JS `Map.get`, object field
lookup). -/
def alGet {κ β : Type} [DecidableEq κ] : List (κ × β) → κ → Option β
  | [], _ => none
  | (k, v) :: rest, n => if k = n then some v else alGet rest n

/-- Association-list update-or-append: replaces the entry in place when
the key is present and appends it otherwise.  This is the semantics of
writing a file, of JS `Map.set`, and of the object spread
`{ ...h, [k]: v }`. -/
def alSet {κ β : Type} [DecidableEq κ] : List (κ × β) → κ → β → List (κ × β)
  | [], n, f => [(n, f)]
  | (k, v) :: rest, n, f => if k = n then (n, f) :: rest else (k, v) :: alSet rest n f

/-- Association-list deletion (`unlinkSync`, `Map.delete`). -/
def alDel {κ β : Type} [DecidableEq κ] (l : List (κ × β)) (n : κ) : List (κ × β) :=
  l.filter (fun p => p.1 ≠ n)

/-- The store-side state: whether a root directory is configured
(config.json has a `storagePath`), the files under the root directory,
and the filesystem clock from which modification times are assigned. -/
structure Store where
  configured : Bool
  files : List (FName × File)
  clock : Nat
deriving DecidableEq

/-- Result shape of the `storage:read` handler. -/
structure ReadResult where
  data : Option Val
  lastModified : Nat
deriving DecidableEq

/-- `storage:read` (src/main/index.ts lines 114-127): absent config,
absent file, and unparsable content all yield `{data: null,
lastModified: 0}`; otherwise the parsed content and the file's mtime. -/
def readHandler (st : Store) (name : FName) : ReadResult :=
  if st.configured = false then ⟨none, 0⟩
  else
    match alGet st.files name with
    | none => ⟨none, 0⟩
    | some f =>
      match f.content with
      | .parsed v => ⟨some v, f.mtime⟩
      | .unparsable => ⟨none, 0⟩

/-- Result shape of the `storage:write` handler. -/
structure WriteResult where
  success : Bool
  conflict : Bool
  lastModified : Nat
  currentData : Option Val
deriving DecidableEq

/-- `storage:write` (src/main/index.ts lines 129-168).  `faults` is the
set of paths at which `writeFileSync` throws.  With no config the handler
reports plain failure.  If the file exists and `expectedLastModified > 0`
and `|mtime - expected| > 50`, it reports a conflict carrying the current
mtime and (when parsable) the current content, and does not write.
Otherwise it writes, assigning the next clock tick as mtime, and returns
the mtime read back; a faulted write reports plain failure. -/
def writeHandler (faults : List FName) (st : Store) (name : FName) (data : Val)
    (expectedLastModified : Nat) : WriteResult × Store :=
  if st.configured = false then (⟨false, false, 0, none⟩, st)
  else
    let proceed : WriteResult × Store :=
      if name ∈ faults then (⟨false, false, 0, none⟩, st)
      else
        let m := st.clock + 1
        (⟨true, false, m, none⟩,
          { st with files := alSet st.files name ⟨.parsed data, m⟩, clock := m })
    match alGet st.files name with
    | some f =>
      if 0 < expectedLastModified ∧ 50 < Nat.dist f.mtime expectedLastModified then
        (⟨false, true, f.mtime, parseOpt f.content⟩, st)
      else proceed
    | none => proceed

/-- Result shape of the `storage:batchWrite` handler. -/
structure BatchResult where
  success : Bool
  timestamps : List (FName × Nat)
deriving DecidableEq

/-- Delete a list of paths (the `for … unlinkSync` cleanup loops). -/
def unlinkAll (files : List (FName × File)) (names : List FName) : List (FName × File) :=
  names.foldl alDel files

/-- An unconditional file write assigning the next clock tick as mtime
(the staging `writeFileSync` of batch phase 1). -/
def writeRaw (st : Store) (name : FName) (data : Val) : Store :=
  { st with files := alSet st.files name ⟨.parsed data, st.clock + 1⟩, clock := st.clock + 1 }

/-- Batch phase 1 (src/main/index.ts lines 181-196): write every entry to
its sibling `.tmp` path, accumulating the tmp paths written so far; if a
staging write faults, unlink all tmp files written so far and fail,
returning the cleaned store. -/
def stage (faults : List FName) :
    List (FName × Val) → Store → List FName → Except Store (Store × List FName)
  | [], st, written => .ok (st, written)
  | (name, data) :: rest, st, written =>
    let t := FName.tmp name
    if t ∈ faults then .error { st with files := unlinkAll st.files written }
    else stage faults rest (writeRaw st t data) (written ++ [t])

/-- Batch phase 2 (src/main/index.ts lines 198-212): rename each tmp path
onto its final path, one at a time; a rename preserves the file's content
and mtime.  On a rename fault (or a missing tmp file, where `renameSync`
would throw) the remaining tmp files, the faulted one included, are
unlinked and the batch fails — files already renamed stay renamed. -/
def renameAll (rfaults : List FName) :
    List (FName × FName) → Store → Except Store Store
  | [], st => .ok st
  | (t, fin) :: rest, st =>
    match if t ∈ rfaults then none else alGet st.files t with
    | none => .error { st with files := unlinkAll st.files (t :: rest.map Prod.fst) }
    | some f => renameAll rfaults rest { st with files := alSet (alDel st.files t) fin f }

/-- `storage:batchWrite` (src/main/index.ts lines 170-224): config guard,
then phase 1 (stage), phase 2 (rename), and phase 3 (read back each
entry's final mtime, skipping entries whose stat fails). -/
def batchWriteHandler (faults rfaults : List FName) (st : Store)
    (entries : List (FName × Val)) : BatchResult × Store :=
  if st.configured = false then (⟨false, []⟩, st)
  else
    match stage faults entries st [] with
    | .error st1 => (⟨false, []⟩, st1)
    | .ok (st1, _) =>
      match renameAll rfaults (entries.map (fun e => (FName.tmp e.1, e.1))) st1 with
      | .error st2 => (⟨false, []⟩, st2)
      | .ok st2 =>
        (⟨true, entries.filterMap (fun e => (alGet st2.files e.1).map (fun f => (e.1, f.mtime)))⟩,
          st2)

/-! ## Renderer-side storage client (src/utils/storage.ts) -/

/-- The process-local version cache `lastKnownTimestamps`: document name
to last-observed mtime. -/
abbrev Cache := List (FName × Nat)

/-- `readFile` (src/utils/storage.ts lines 19-30): on non-null data,
record the observed mtime in the cache and return the data; otherwise
return the caller-supplied fallback and leave the cache alone. -/
def readFileC (st : Store) (cache : Cache) (name : FName) (fallback : Val) : Val × Cache :=
  let r := readHandler st name
  match r.data with
  | some v => (v, alSet cache name r.lastModified)
  | none => (fallback, cache)

/-- `writeFile` (src/utils/storage.ts lines 32-41): conditional write with
the cached mtime (or 0) as the expected version.  A conflict throws
`ConflictError` carrying the handler's `currentData` (modelled as
`Except.error`) before the cache is touched; a successful write records
the new mtime; a plain failure leaves the cache alone. -/
def writeFileC (faults : List FName) (st : Store) (cache : Cache) (name : FName)
    (data : Val) : Except (Option Val) Unit × Store × Cache :=
  let expected := (alGet cache name).getD 0
  let out := writeHandler faults st name data expected
  if out.1.conflict then (.error out.1.currentData, out.2, cache)
  else if out.1.success then (.ok (), out.2, alSet cache name out.1.lastModified)
  else (.ok (), out.2, cache)

/-- `forceWriteFile` (src/utils/storage.ts lines 44-49): write with
`expectedLastModified = 0`, skipping the conflict check; record the new
mtime only on success. -/
def forceWriteFileC (faults : List FName) (st : Store) (cache : Cache) (name : FName)
    (data : Val) : Store × Cache :=
  let out := writeHandler faults st name data 0
  if out.1.success then (out.2, alSet cache name out.1.lastModified)
  else (out.2, cache)

/-- The filename helper `sectionsFilename` of src/utils/storage.ts. -/
def sectionsFilename (year : Nat) (sem : String) : FName :=
  FName.sections year sem

/-- The typed projection behind the unchecked `result.data as T` cast of
`readFile` when loading a sections document; on a well-typed store it is
the identity on the stored list. -/
def Val.asSections : Val → Option (List Section)
  | .sections ss => some ss
  | _ => none

/-- `loadSections` (src/utils/storage.ts lines 60-62): `readFile` with
fallback `[]`.  The TS `as Section[]` cast is unchecked; the projection
`Val.asSections` with default `[]` stands in for it and agrees with the
code whenever the stored document really is a sections list. -/
def loadSectionsC (st : Store) (cache : Cache) (year : Nat) (sem : String) :
    List Section × Cache :=
  let out := readFileC st cache (sectionsFilename year sem) (Val.sections [])
  ((out.1.asSections).getD [], out.2)

/-- The entry list that `batchSaveSectionsAndHistory`
(src/utils/storage.ts lines 146-150) builds: the sections document first,
then `instructors.json` and `courses.json` only when the caller passed
them. -/
def batchEntries (sections : List Section) (year : Nat) (sem : String)
    (instrs : Option (List Instructor)) (courses : Option (List Course)) :
    List (FName × Val) :=
  [(sectionsFilename year sem, Val.sections sections)]
    ++ (match instrs with
        | some is => [(FName.instructorsJson, Val.instructors is)]
        | none => [])
    ++ (match courses with
        | some cs => [(FName.coursesJson, Val.courses cs)]
        | none => [])

/-- `batchSaveSectionsAndHistory` (src/utils/storage.ts lines 139-161):
issue the batch write; on failure throw (modelled as `Except.error`)
before touching the cache; on success fold the returned timestamps into
the cache. -/
def batchSaveSectionsAndHistoryC (faults rfaults : List FName) (st : Store) (cache : Cache)
    (sections : List Section) (year : Nat) (sem : String)
    (instrs : Option (List Instructor)) (courses : Option (List Course)) :
    Except String Unit × Store × Cache :=
  let out := batchWriteHandler faults rfaults st (batchEntries sections year sem instrs courses)
  if out.1.success then
    (.ok (), out.2, out.1.timestamps.foldl (fun c p => alSet c p.1 p.2) cache)
  else (.error "Batch write failed", out.2, cache)

/-- `refreshTimestamp` (src/utils/storage.ts lines 163-167): delete the
cached mtime of the current sections document. -/
def refreshTimestampC (cache : Cache) (year : Nat) (sem : String) : Cache :=
  alDel cache (sectionsFilename year sem)

/-! ## App.tsx save path -/

/-- The term key `` `${year}-${semester}` `` of App.tsx line 151. -/
def termKey (year : Nat) (sem : String) : String :=
  toString year ++ "-" ++ sem

/-- The instructor-history entries for one instructor (App.tsx lines
153-155): the sections taught by that instructor, projected to
`{courseName, sectionNumber, location, workload}`. -/
def instructorEntries (sections : List Section) (inst : Instructor) : List IEntry :=
  (sections.filter (fun s => s.instructor = inst.name)).map
    (fun s => ⟨s.courseName, s.sectionNumber, s.location, s.workload⟩)

/-- `updatedInstructors` (App.tsx lines 152-158): each instructor with the
current term key's history entry replaced by the freshly filtered list;
the object spread `{ ...inst.history, [termKey]: entries }` is `alSet`. -/
def updatedInstructors (tk : String) (sections : List Section)
    (instrs : List Instructor) : List Instructor :=
  instrs.map (fun inst =>
    { inst with history := alSet inst.history tk (instructorEntries sections inst) })

/-- `instrChanged` (App.tsx lines 159-161): some updated history differs
from the old one (`JSON.stringify` comparison is structural equality of
the ordered history lists). -/
def instrChanged (tk : String) (sections : List Section) (instrs : List Instructor) : Bool :=
  ((updatedInstructors tk sections instrs).zip instrs).any
    (fun p => decide (p.1.history ≠ p.2.history))

/-- The course-history entries for one course (App.tsx lines 165-167). -/
def courseEntries (sections : List Section) (course : Course) : List CEntry :=
  (sections.filter (fun s => s.courseName = course.abbreviation)).map
    (fun s => ⟨s.sectionNumber, s.instructor, s.location⟩)

/-- `updatedCourses` (App.tsx lines 164-170). -/
def updatedCourses (tk : String) (sections : List Section)
    (courses : List Course) : List Course :=
  courses.map (fun course =>
    { course with history := alSet course.history tk (courseEntries sections course) })

/-- `coursesChanged` (App.tsx lines 171-173). -/
def coursesChanged (tk : String) (sections : List Section) (courses : List Course) : Bool :=
  ((updatedCourses tk sections courses).zip courses).any
    (fun p => decide (p.1.history ≠ p.2.history))

/-- The commit step of a save task (App.tsx lines 150-183, after the
generation re-check): compute the aggregate updates and issue one batch
commit of the sections snapshot plus each aggregate that actually
changed. -/
def saveCommit (faults rfaults : List FName) (st : Store) (cache : Cache)
    (sections : List Section) (year : Nat) (sem : String)
    (instrs : List Instructor) (courses : List Course) :
    Except String Unit × Store × Cache :=
  let tk := termKey year sem
  batchSaveSectionsAndHistoryC faults rfaults st cache sections year sem
    (if instrChanged tk sections instrs then some (updatedInstructors tk sections instrs)
     else none)
    (if coursesChanged tk sections courses then some (updatedCourses tk sections courses)
     else none)

/-- A queued save task (App.tsx save-queue useEffect, lines 134-145): the
generation captured at enqueue time plus the snapshots the closure
captures. -/
structure SaveTask where
  gen : Nat
  sections : List Section
  year : Nat
  sem : String
  instrs : List Instructor
  courses : List Course

/-- Running one queued save task (App.tsx lines 146-183).  `c1` is the
value of `saveGeneration.current` at the first staleness check, `c2` its
value at the re-check immediately before the batch commit; a stale task
returns without any work, a current one issues `saveCommit`.  The boolean
records whether a commit was issued. -/
def runSaveTask (faults rfaults : List FName) (c1 c2 : Nat) (t : SaveTask)
    (st : Store) (cache : Cache) : Store × Cache × Bool :=
  if t.gen ≠ c1 then (st, cache, false)
  else if t.gen ≠ c2 then (st, cache, false)
  else
    let out := saveCommit faults rfaults st cache t.sections t.year t.sem t.instrs t.courses
    (out.2.1, out.2.2, true)

/-- Running a drained save queue whose tasks were all enqueued before any
of them ran, so every staleness check observes the same final generation
`current`.  Returns the final store and cache and the number of commits
issued. -/
def runQueue (faults rfaults : List FName) (current : Nat) (ts : List SaveTask)
    (st : Store) (cache : Cache) : Store × Cache × Nat :=
  ts.foldl (fun acc t =>
    let out := runSaveTask faults rfaults current current t acc.1 acc.2.1
    (out.1, out.2.1, acc.2.2 + (if out.2.2 then 1 else 0))) (st, cache, 0)

/-- `handleConflictReload` (App.tsx lines 441-446): drop the cached mtime
of the current sections document, re-read it from the store, and return
the freshly read content as the new in-memory sections state (the
previous in-memory sections are discarded — they do not enter the
computation). -/
def handleConflictReload (st : Store) (cache : Cache) (year : Nat) (sem : String) :
    List Section × Cache :=
  loadSectionsC st (refreshTimestampC cache year sem) year sem

/-- The store a `stage` run ends in, whichever way it ends. -/
def stageOut : Except Store (Store × List FName) → Store
  | .ok (st, _) => st
  | .error st => st

/-- The store a `renameAll` run ends in, whichever way it ends. -/
def renameOut : Except Store Store → Store
  | .ok st => st
  | .error st => st

/-! ## Concrete fixtures used by witness theorems -/

/-- A concrete schedule entry. -/
def sampleSection : Section :=
  ⟨"s1", "MATH-101", "A01", "Alice", [⟨"Mon", "09:00", "10:00"⟩], "R101", "blue", none, some 3⟩

/-- A configured store with no documents. -/
def emptyStore : Store := ⟨true, [], 0⟩

/-- An unconfigured store holding one document. -/
def noConfigStore : Store := ⟨false, [(FName.other "a.json", ⟨.parsed (Val.raw "X"), 7⟩)], 7⟩

/-- A configured store holding `a.json` with mtime 1000. -/
def conflictStore : Store :=
  ⟨true, [(FName.other "a.json", ⟨.parsed (Val.raw "X"), 1000⟩)], 1000⟩

/-- A configured store whose sections document was modified externally
(mtime 1000) while the local cache still holds baseline mtime 10. -/
def staleStore : Store :=
  ⟨true, [(FName.sections 2026 "Fall", ⟨.parsed (Val.sections []), 1000⟩)], 1000⟩

/-- The version cache holding the stale baseline for `staleStore`. -/
def staleCache : Cache := [(FName.sections 2026 "Fall", 10)]

/-- An instructor whose 2026-Fall history already matches
`[sampleSection]`. -/
def instAlice : Instructor :=
  ⟨"i1", "Alice", "AL", [("2026-Fall", [⟨"MATH-101", "A01", "R101", some 3⟩])]⟩

/-- A configured store holding a parsable sections document with
mtime 42. -/
def reloadStore : Store :=
  ⟨true, [(FName.sections 2026 "Fall", ⟨.parsed (Val.sections [sampleSection]), 42⟩)], 100⟩

/-- A configured store holding one of the three batch targets. -/
def batchFixtureStore : Store := ⟨true, [(FName.other "a", ⟨.parsed (Val.raw "Y"), 5⟩)], 10⟩

/-- A configured store holding an instructors catalog at version 77. -/
def skipStore : Store :=
  ⟨true, [(FName.instructorsJson, ⟨.parsed (Val.instructors [instAlice]), 77⟩)], 100⟩

/-- An instructor whose history only mentions a past term. -/
def instBob : Instructor :=
  ⟨"i2", "Bob", "BB", [("2025-Fall", [⟨"MATH-090", "B01", "R2", none⟩])]⟩

/-! ## Association-list and filesystem lemmas -/

theorem alGet_alSet {κ β : Type} [DecidableEq κ] (l : List (κ × β)) (m n : κ) (v : β) :
    alGet (alSet l m v) n = if m = n then some v else alGet l n := by
  induction l with
  | nil => simp [alGet, alSet]
  | cons p rest ih =>
    obtain ⟨k, w⟩ := p
    by_cases hkm : k = m
    · subst hkm
      by_cases hkn : k = n <;> simp [alSet, alGet, hkn]
    · by_cases hkn : k = n
      · subst hkn
        simp [alSet, alGet, hkm, Ne.symm hkm]
      · simp [alSet, alGet, hkm, hkn, ih]

theorem alGet_alDel {κ β : Type} [DecidableEq κ] (l : List (κ × β)) (m n : κ) :
    alGet (alDel l m) n = if m = n then none else alGet l n := by
  induction l with
  | nil => simp [alGet, alDel]
  | cons p rest ih =>
    obtain ⟨k, w⟩ := p
    by_cases hkm : k = m
    · subst hkm
      by_cases hkn : k = n
      · subst hkn
        simp [alDel, alGet] at ih ⊢
        simpa using ih
      · simp [alDel, alGet, hkn] at ih ⊢
        simpa [hkn] using ih
    · by_cases hkn : k = n
      · subst hkn
        simp [alDel, alGet, hkm, Ne.symm hkm]
      · simp [alDel, alGet, hkm, hkn] at ih ⊢
        exact ih

theorem alGet_unlinkAll (files : List (FName × File)) (names : List FName) (n : FName) :
    alGet (unlinkAll files names) n = if n ∈ names then none else alGet files n := by
  induction names generalizing files with
  | nil => simp [unlinkAll]
  | cons m rest ih =>
    have step : unlinkAll files (m :: rest) = unlinkAll (alDel files m) rest := rfl
    rw [step, ih]
    by_cases hmem : n ∈ rest
    · simp [hmem]
    · by_cases hnm : m = n
      · subst hnm
        simp [hmem, alGet_alDel]
      · simp [hmem, alGet_alDel, hnm, Ne.symm hnm]

theorem stage_frame (faults : List FName) :
    ∀ (es : List (FName × Val)) (st : Store) (w : List FName) (n : FName),
      n ∉ w → (∀ m : FName, n ≠ FName.tmp m) →
      alGet (stageOut (stage faults es st w)).files n = alGet st.files n := by
  intro es
  induction es with
  | nil => intro st w n _ _; simp [stage, stageOut]
  | cons e rest ih =>
    intro st w n hw htmp
    obtain ⟨name, data⟩ := e
    by_cases hf : FName.tmp name ∈ faults
    · simp only [stage, hf, if_pos, stageOut]
      rw [alGet_unlinkAll]
      simp [hw]
    · simp only [stage, hf, if_neg, not_false_iff]
      rw [ih (writeRaw st (FName.tmp name) data) (w ++ [FName.tmp name]) n
        (by simp [hw, htmp name]) htmp]
      simp [writeRaw, alGet_alSet, (htmp name).symm, Ne.symm (htmp name)]

theorem renameAll_frame (rfaults : List FName) :
    ∀ (ps : List (FName × FName)) (st : Store) (n : FName),
      n ∉ ps.map Prod.fst → n ∉ ps.map Prod.snd →
      alGet (renameOut (renameAll rfaults ps st)).files n = alGet st.files n := by
  intro ps
  induction ps with
  | nil => intro st n _ _; simp [renameAll, renameOut]
  | cons p rest ih =>
    intro st n h1 h2
    obtain ⟨t, fin⟩ := p
    simp only [List.map_cons, List.mem_cons, not_or] at h1 h2
    obtain ⟨hnt, h1'⟩ := h1
    obtain ⟨hnf, h2'⟩ := h2
    simp only [renameAll]
    cases hlook : (if t ∈ rfaults then none else alGet st.files t) with
    | none =>
      simp only [renameOut]
      rw [alGet_unlinkAll]
      simp [hnt, h1']
    | some f =>
      rw [ih _ n h1' h2']
      simp [alGet_alSet, alGet_alDel, Ne.symm hnf, Ne.symm hnt, hnf, hnt]

/-- The final store of a batch write on a configured store, phrased with
`stageOut`/`renameOut` so the two phases can be reasoned about one at a
time. -/
theorem batchWriteHandler_store (faults rfaults : List FName) (st : Store)
    (es : List (FName × Val)) (hc : st.configured = true) :
    (batchWriteHandler faults rfaults st es).2 =
      (match stage faults es st [] with
       | .error st1 => st1
       | .ok (st1, _) =>
         renameOut (renameAll rfaults (es.map (fun e => (FName.tmp e.1, e.1))) st1)) := by
  unfold batchWriteHandler
  rw [if_neg (by simp [hc])]
  cases stage faults es st [] with
  | error st1 => rfl
  | ok out =>
    obtain ⟨st1, tmps⟩ := out
    dsimp only
    cases renameAll rfaults (es.map (fun e => (FName.tmp e.1, e.1))) st1 <;> rfl

theorem batchWrite_frame (faults rfaults : List FName) (st : Store)
    (es : List (FName × Val)) (n : FName)
    (h1 : n ∉ es.map Prod.fst) (h2 : ∀ m : FName, n ≠ FName.tmp m) :
    alGet (batchWriteHandler faults rfaults st es).2.files n = alGet st.files n := by
  cases hc : st.configured with
  | false => simp [batchWriteHandler, hc]
  | true =>
    rw [batchWriteHandler_store faults rfaults st es hc]
    have hstage := stage_frame faults es st [] n (by simp) h2
    cases hs : stage faults es st [] with
    | error st1 =>
      rw [hs] at hstage
      simpa [stageOut] using hstage
    | ok out =>
      obtain ⟨st1, tmps⟩ := out
      rw [hs] at hstage
      simp only [stageOut] at hstage
      have hren := renameAll_frame rfaults (es.map (fun e => (FName.tmp e.1, e.1))) st1 n
        (by
          intro hmem
          rcases List.mem_map.1 hmem with ⟨q, hq, hqn⟩
          rcases List.mem_map.1 hq with ⟨e, he, rfl⟩
          exact h2 e.1 hqn.symm)
        (by
          intro hmem
          rcases List.mem_map.1 hmem with ⟨q, hq, hqn⟩
          rcases List.mem_map.1 hq with ⟨e, he, rfl⟩
          exact h1 (List.mem_map.2 ⟨e, he, hqn⟩))
      exact hren.trans hstage

/-- Behaviour of batch phase 1 when the staging write of one entry
faults after the earlier entries staged cleanly: the run fails with a
store in which every path other than the already-written temp files is
untouched and every already-written temp file is gone. -/
theorem stage_fault_spec (faults : List FName) :
    ∀ (es₁ : List (FName × Val)) (nk : FName) (vk : Val) (es₂ : List (FName × Val))
      (st : Store) (w : List FName),
      (∀ e ∈ es₁, FName.tmp e.1 ∉ faults) → FName.tmp nk ∈ faults →
      ∃ st', stage faults (es₁ ++ (nk, vk) :: es₂) st w = .error st' ∧
        (∀ n, n ∉ w → n ∉ es₁.map (fun e => FName.tmp e.1) →
          alGet st'.files n = alGet st.files n) ∧
        (∀ n, n ∈ w ∨ n ∈ es₁.map (fun e => FName.tmp e.1) → alGet st'.files n = none) := by
  intro es₁
  induction es₁ with
  | nil =>
    intro nk vk es₂ st w _ hk
    refine ⟨{ st with files := unlinkAll st.files w }, ?_, ?_, ?_⟩
    · simp [stage, hk]
    · intro n hnw _
      simp [alGet_unlinkAll, hnw]
    · intro n hn
      rcases hn with hn | hn
      · simp [alGet_unlinkAll, hn]
      · simp at hn
  | cons e rest ih =>
    intro nk vk es₂ st w h1 hk
    obtain ⟨name, data⟩ := e
    have hname : FName.tmp name ∉ faults := h1 (name, data) (List.mem_cons_self _ _)
    obtain ⟨st', heq, hframe, hdel⟩ :=
      ih nk vk es₂ (writeRaw st (FName.tmp name) data) (w ++ [FName.tmp name])
        (fun e he => h1 e (List.mem_cons_of_mem _ he)) hk
    refine ⟨st', ?_, ?_, ?_⟩
    · simpa [stage, hname] using heq
    · intro n hnw hnm
      simp only [List.map_cons, List.mem_cons, not_or] at hnm
      obtain ⟨hnt, hnm'⟩ := hnm
      rw [hframe n (by simp [hnw, hnt]) hnm']
      simp [writeRaw, alGet_alSet, Ne.symm hnt]
    · intro n hn
      rcases hn with hn | hn
      · exact hdel n (Or.inl (by simp [hn]))
      · simp only [List.map_cons, List.mem_cons] at hn
        rcases hn with hn | hn
        · exact hdel n (Or.inl (by simp [hn]))
        · exact hdel n (Or.inr hn)

/-- The success path of the `storage:write` handler on a configured
store with a non-faulted target path. -/
theorem writeHandler_proceed (faults : List FName) (st : Store) (name : FName) (data : Val)
    (expected : Nat) (hconf : st.configured = true) (hf : name ∉ faults)
    (hnc : ∀ f, alGet st.files name = some f →
      ¬(0 < expected ∧ 50 < Nat.dist f.mtime expected)) :
    writeHandler faults st name data expected =
      (⟨true, false, st.clock + 1, none⟩,
        { st with files := alSet st.files name ⟨.parsed data, st.clock + 1⟩,
                  clock := st.clock + 1 }) := by
  unfold writeHandler
  rw [if_neg (by simp [hconf])]
  cases halook : alGet st.files name with
  | none => simp [hf]
  | some f => simp [hf, hnc f halook]

/-! ## Claim theorems -/

/-- C1: with the root directory configured and the target path not
IO-faulted, a conditional write reports `conflict = true` iff the
document exists, the expected version is positive, and the stored and
expected versions differ by more than 50; on conflict the store is
untouched, the reported version is the stored mtime and the stored
content is returned exactly when it parses; in every other case the
write succeeds and the document afterwards holds the new content under
the returned (positive) version. -/
theorem write_conflict_spec (faults : List FName) (st : Store) (name : FName) (data : Val)
    (expected : Nat) (hconf : st.configured = true) (hf : name ∉ faults) :
    ((writeHandler faults st name data expected).1.conflict = true ↔
      ∃ f, alGet st.files name = some f ∧ 0 < expected ∧ 50 < Nat.dist f.mtime expected) ∧
    ((writeHandler faults st name data expected).1.conflict = true →
      (writeHandler faults st name data expected).2 = st ∧
      (writeHandler faults st name data expected).1.success = false ∧
      ∀ f, alGet st.files name = some f →
        (writeHandler faults st name data expected).1.lastModified = f.mtime ∧
        (writeHandler faults st name data expected).1.currentData = parseOpt f.content) ∧
    ((writeHandler faults st name data expected).1.conflict = false →
      (writeHandler faults st name data expected).1.success = true ∧
      0 < (writeHandler faults st name data expected).1.lastModified ∧
      alGet (writeHandler faults st name data expected).2.files name =
        some ⟨.parsed data, (writeHandler faults st name data expected).1.lastModified⟩) := by
  by_cases hcase : ∃ f, alGet st.files name = some f ∧
      0 < expected ∧ 50 < Nat.dist f.mtime expected
  · obtain ⟨f, hlook, hcond⟩ := hcase
    have hstep : writeHandler faults st name data expected =
        (⟨false, true, f.mtime, parseOpt f.content⟩, st) := by
      unfold writeHandler
      rw [if_neg (by simp [hconf])]
      rw [hlook]
      simp [hcond]
    rw [hstep]
    refine ⟨⟨fun _ => ⟨f, hlook, hcond⟩, fun _ => rfl⟩, fun _ => ⟨rfl, rfl, ?_⟩, fun h => by simp at h⟩
    intro f' hf'
    rw [hlook] at hf'
    obtain rfl : f = f' := Option.some.inj hf'
    exact ⟨rfl, rfl⟩
  · have hnc : ∀ f, alGet st.files name = some f →
        ¬(0 < expected ∧ 50 < Nat.dist f.mtime expected) :=
      fun f hlook hcond => hcase ⟨f, hlook, hcond⟩
    rw [writeHandler_proceed faults st name data expected hconf hf hnc]
    refine ⟨⟨fun h => by simp at h, fun hex => absurd hex hcase⟩, fun h => by simp at h, ?_⟩
    intro _
    exact ⟨rfl, Nat.succ_pos _, by simp [alGet_alSet]⟩

/-- C1 witness: at mtime 1000 against expected 10 the write conflicts
and leaves the store alone; on an absent document the write succeeds. -/
theorem write_conflict_spec_witness :
    (writeHandler [] conflictStore (FName.other "a.json") (Val.raw "Y") 10).2 = conflictStore ∧
    (writeHandler [] conflictStore (FName.other "a.json") (Val.raw "Y") 10).1.currentData =
      some (Val.raw "X") ∧
    (writeHandler [] emptyStore (FName.other "a.json") (Val.raw "X") 10).1.success = true := by
  have h1 := write_conflict_spec [] conflictStore (FName.other "a.json") (Val.raw "Y") 10
    rfl (by simp)
  have h2 := write_conflict_spec [] emptyStore (FName.other "a.json") (Val.raw "X") 10
    rfl (by simp)
  exact ⟨(h1.2.1 (by decide)).1,
    ((h1.2.1 (by decide)).2.2 ⟨.parsed (Val.raw "X"), 1000⟩ (by decide)).2,
    (h2.2.2 (by decide)).1⟩

/-- C8: on a configured store with a non-faulted path, `write(name, X, 0)`
succeeds and an immediate `read(name)` returns `X` together with the
positive version the write reported. -/
theorem write_read_roundtrip (faults : List FName) (st : Store) (name : FName) (data : Val)
    (hconf : st.configured = true) (hf : name ∉ faults) :
    (writeHandler faults st name data 0).1.success = true ∧
    0 < (writeHandler faults st name data 0).1.lastModified ∧
    readHandler (writeHandler faults st name data 0).2 name =
      ⟨some data, (writeHandler faults st name data 0).1.lastModified⟩ := by
  rw [writeHandler_proceed faults st name data 0 hconf hf (fun f _ hc => by simp at hc)]
  exact ⟨rfl, Nat.succ_pos _, by simp [readHandler, hconf, alGet_alSet]⟩

/-- C8 witness at a concrete store and document. -/
theorem write_read_roundtrip_witness :
    (writeHandler [] emptyStore (FName.other "a.json") (Val.raw "X") 0).1.success = true ∧
    readHandler (writeHandler [] emptyStore (FName.other "a.json") (Val.raw "X") 0).2
        (FName.other "a.json") =
      ⟨some (Val.raw "X"), (writeHandler [] emptyStore (FName.other "a.json") (Val.raw "X") 0).1.lastModified⟩ := by
  have h := write_read_roundtrip [] emptyStore (FName.other "a.json") (Val.raw "X") rfl (by simp)
  exact ⟨h.1, h.2.2⟩

/-- C9: with no root directory configured, reads yield the
caller-supplied default (`{data: null}` at the handler, the fallback at
the client) and single and batch writes are reported as failed result
values with the store untouched — the handlers and the client write
wrapper return normally rather than raising. -/
theorem not_configured_degraded (faults rfaults : List FName) (st : Store)
    (hconf : st.configured = false) :
    (∀ name, readHandler st name = ⟨none, 0⟩) ∧
    (∀ cache name fallback, readFileC st cache name fallback = (fallback, cache)) ∧
    (∀ name data expected,
      writeHandler faults st name data expected = (⟨false, false, 0, none⟩, st)) ∧
    (∀ cache name data, writeFileC faults st cache name data = (.ok (), st, cache)) ∧
    (∀ entries, batchWriteHandler faults rfaults st entries = (⟨false, []⟩, st)) := by
  have hread : ∀ name, readHandler st name = ⟨none, 0⟩ := fun name => by
    simp [readHandler, hconf]
  have hwrite : ∀ name data expected,
      writeHandler faults st name data expected = (⟨false, false, 0, none⟩, st) :=
    fun name data expected => by simp [writeHandler, hconf]
  refine ⟨hread, ?_, hwrite, ?_, ?_⟩
  · intro cache name fallback
    simp [readFileC, hread name]
  · intro cache name data
    simp [writeFileC, hwrite name data ((alGet cache name).getD 0)]
  · intro entries
    simp [batchWriteHandler, hconf]

/-- C9 witness on an unconfigured store holding a document. -/
theorem not_configured_degraded_witness :
    readFileC noConfigStore [] (FName.other "a.json") (Val.raw "D") = (Val.raw "D", []) ∧
    batchWriteHandler [] [] noConfigStore [(FName.other "a.json", Val.raw "Z")] =
      (⟨false, []⟩, noConfigStore) := by
  have h := not_configured_degraded [] [] noConfigStore rfl
  exact ⟨h.2.1 [] (FName.other "a.json") (Val.raw "D"), h.2.2.2.2 _⟩

/-- The store component of a client batch save is the store the batch
handler produced, whether or not the batch succeeded. -/
theorem batchSave_store (faults rfaults : List FName) (st : Store) (cache : Cache)
    (ss : List Section) (year : Nat) (sem : String)
    (iOpt : Option (List Instructor)) (cOpt : Option (List Course)) :
    (batchSaveSectionsAndHistoryC faults rfaults st cache ss year sem iOpt cOpt).2.1 =
      (batchWriteHandler faults rfaults st (batchEntries ss year sem iOpt cOpt)).2 := by
  unfold batchSaveSectionsAndHistoryC
  dsimp only
  split <;> rfl

/-- The store component of a full save commit, expressed through the
batch handler. -/
theorem saveCommit_store (faults rfaults : List FName) (st : Store) (cache : Cache)
    (ss : List Section) (year : Nat) (sem : String)
    (instrs : List Instructor) (courses : List Course) :
    (saveCommit faults rfaults st cache ss year sem instrs courses).2.1 =
      (batchWriteHandler faults rfaults st (batchEntries ss year sem
        (if instrChanged (termKey year sem) ss instrs
         then some (updatedInstructors (termKey year sem) ss instrs) else none)
        (if coursesChanged (termKey year sem) ss courses
         then some (updatedCourses (termKey year sem) ss courses) else none))).2 := by
  unfold saveCommit
  exact batchSave_store faults rfaults st cache ss year sem _ _

/-- C4: when some staging write of a batch faults after the earlier
entries staged cleanly, the whole batch fails, every final document keeps
its stored value and version, and every temp file written so far is
deleted. -/
theorem batch_staging_rollback (faults rfaults : List FName) (st : Store)
    (es₁ es₂ : List (FName × Val)) (nk : FName) (vk : Val)
    (hconf : st.configured = true)
    (h₁ : ∀ e ∈ es₁, FName.tmp e.1 ∉ faults)
    (hk : FName.tmp nk ∈ faults)
    (hplain : ∀ e ∈ es₁ ++ (nk, vk) :: es₂, ∀ m : FName, e.1 ≠ FName.tmp m) :
    (batchWriteHandler faults rfaults st (es₁ ++ (nk, vk) :: es₂)).1 = ⟨false, []⟩ ∧
    (∀ e ∈ es₁ ++ (nk, vk) :: es₂,
      alGet (batchWriteHandler faults rfaults st (es₁ ++ (nk, vk) :: es₂)).2.files e.1 =
        alGet st.files e.1) ∧
    (∀ e ∈ es₁,
      alGet (batchWriteHandler faults rfaults st (es₁ ++ (nk, vk) :: es₂)).2.files
        (FName.tmp e.1) = none) := by
  obtain ⟨st', heq, hframe, hdel⟩ := stage_fault_spec faults es₁ nk vk es₂ st [] h₁ hk
  have hhandler : batchWriteHandler faults rfaults st (es₁ ++ (nk, vk) :: es₂) =
      (⟨false, []⟩, st') := by
    unfold batchWriteHandler
    rw [if_neg (by simp [hconf]), heq]
  rw [hhandler]
  refine ⟨rfl, ?_, ?_⟩
  · intro e he
    refine hframe e.1 (by simp) ?_
    intro hmem
    rcases List.mem_map.1 hmem with ⟨e', he', heq'⟩
    exact hplain e he e'.1 heq'.symm
  · intro e he
    exact hdel (FName.tmp e.1) (Or.inr (List.mem_map.2 ⟨e, he, rfl⟩))

/-- C4 witness: three entries, the second temp write faulted — the batch
fails, all three final documents keep their value and version, and the
first entry's temp file is gone. -/
theorem batch_staging_rollback_witness :
    (batchWriteHandler [FName.tmp (FName.other "b")] [] batchFixtureStore
      [(FName.other "a", Val.raw "X"), (FName.other "b", Val.raw "X"),
       (FName.other "c", Val.raw "X")]).1 = ⟨false, []⟩ ∧
    alGet (batchWriteHandler [FName.tmp (FName.other "b")] [] batchFixtureStore
      [(FName.other "a", Val.raw "X"), (FName.other "b", Val.raw "X"),
       (FName.other "c", Val.raw "X")]).2.files (FName.other "a") =
      alGet batchFixtureStore.files (FName.other "a") ∧
    alGet (batchWriteHandler [FName.tmp (FName.other "b")] [] batchFixtureStore
      [(FName.other "a", Val.raw "X"), (FName.other "b", Val.raw "X"),
       (FName.other "c", Val.raw "X")]).2.files (FName.tmp (FName.other "a")) = none := by
  have h := batch_staging_rollback [FName.tmp (FName.other "b")] [] batchFixtureStore
    [(FName.other "a", Val.raw "X")] [(FName.other "c", Val.raw "X")]
    (FName.other "b") (Val.raw "X") rfl (by decide) (by decide)
    (by
      intro e he m
      simp only [List.cons_append, List.nil_append, List.mem_cons, List.not_mem_nil,
        or_false] at he
      rcases he with rfl | rfl | rfl <;> simp)
  exact ⟨h.1, h.2.1 (FName.other "a", Val.raw "X") (by simp), h.2.2 (FName.other "a", Val.raw "X") (by simp)⟩

/-- C2: counter-evidence.  The save path's batch commit performs no
version-precondition check at all: with the stored sections document at
mtime 1000 and the cached baseline at 10 — a gap far beyond the 50ms
tolerance, which the conditional single-document write handler does
reject as a conflict — the batch save nevertheless reports success and
overwrites the externally modified document, so control never reaches
the conflict-resolution flow. -/
theorem batch_overwrites_stale_primary :
    50 < Nat.dist 1000 ((alGet staleCache (FName.sections 2026 "Fall")).getD 0) ∧
    (writeHandler [] staleStore (FName.sections 2026 "Fall") (Val.sections [sampleSection])
      ((alGet staleCache (FName.sections 2026 "Fall")).getD 0)).1.conflict = true ∧
    (saveCommit [] [] staleStore staleCache [sampleSection] 2026 "Fall" [] []).1 =
      .ok () ∧
    alGet (saveCommit [] [] staleStore staleCache [sampleSection] 2026 "Fall" [] []).2.1.files
      (FName.sections 2026 "Fall") =
      some ⟨.parsed (Val.sections [sampleSection]), 1001⟩ := by
  exact ⟨by decide, by decide, rfl, by decide⟩

/-- On a configured store with no IO faults, a save commit leaves the
sections document holding the committed snapshot under the version
assigned to its staging write (the store clock's next tick), whatever
aggregates happened to join the batch. -/
theorem saveCommit_sections_mtime (st : Store) (cache : Cache) (ss : List Section)
    (year : Nat) (sem : String) (instrs : List Instructor) (courses : List Course)
    (hconf : st.configured = true) :
    alGet (saveCommit [] [] st cache ss year sem instrs courses).2.1.files
        (FName.sections year sem) =
      some ⟨.parsed (Val.sections ss), st.clock + 1⟩ := by
  rw [saveCommit_store]
  have hbs : ∀ (iOpt : Option (List Instructor)) (cOpt : Option (List Course)),
      alGet (batchWriteHandler [] [] st (batchEntries ss year sem iOpt cOpt)).2.files
          (FName.sections year sem) = some ⟨.parsed (Val.sections ss), st.clock + 1⟩ := by
    intro iOpt cOpt
    cases iOpt <;> cases cOpt <;>
      simp [batchEntries, batchWriteHandler, hconf, stage, renameAll, writeRaw,
        sectionsFilename, alGet_alSet, alGet_alDel]
  exact hbs _ _

/-- C3: a queued save task whose generation the process-wide counter has
passed — at either its initial check or its re-check before the commit —
performs no work at all; consequently three edits enqueued faster than
one commit completes coalesce into exactly one issued commit whose
snapshot is the third edit's, and (on a configured fault-free store) the
persisted sections content is the third snapshot — the first two never
reach storage. -/
theorem serializer_coalescing :
    (∀ (faults rfaults : List FName) (c1 c2 : Nat) (t : SaveTask) (st : Store) (cache : Cache),
      t.gen < c1 ∨ t.gen < c2 →
      runSaveTask faults rfaults c1 c2 t st cache = (st, cache, false)) ∧
    (∀ (st : Store) (cache : Cache) (year : Nat) (sem : String)
      (e1 e2 e3 : List Section) (i1 i2 i3 : List Instructor) (cs1 cs2 cs3 : List Course),
      runQueue [] [] 3 [⟨1, e1, year, sem, i1, cs1⟩, ⟨2, e2, year, sem, i2, cs2⟩,
          ⟨3, e3, year, sem, i3, cs3⟩] st cache =
        ((saveCommit [] [] st cache e3 year sem i3 cs3).2.1,
         (saveCommit [] [] st cache e3 year sem i3 cs3).2.2, 1) ∧
      (st.configured = true →
        alGet (runQueue [] [] 3 [⟨1, e1, year, sem, i1, cs1⟩, ⟨2, e2, year, sem, i2, cs2⟩,
            ⟨3, e3, year, sem, i3, cs3⟩] st cache).1.files (FName.sections year sem) =
          some ⟨.parsed (Val.sections e3), st.clock + 1⟩)) := by
  constructor
  · intro faults rfaults c1 c2 t st cache h
    unfold runSaveTask
    by_cases h1 : t.gen = c1
    · rw [if_neg (by simp [h1])]
      have h2 : t.gen ≠ c2 := by
        rcases h with h | h
        · exact absurd h1 (Nat.ne_of_lt h)
        · exact Nat.ne_of_lt h
      rw [if_pos h2]
    · rw [if_pos h1]
  · intro st cache year sem e1 e2 e3 i1 i2 i3 cs1 cs2 cs3
    refine ⟨rfl, ?_⟩
    intro hconf
    exact saveCommit_sections_mtime st cache e3 year sem i3 cs3 hconf

/-- C3 witness: three concrete tasks with generations 1, 2, 3 against
final generation 3 — one commit, and the store holds the third
snapshot. -/
theorem serializer_coalescing_witness :
    runQueue [] [] 3 [⟨1, [], 2026, "Fall", [], []⟩, ⟨2, [], 2026, "Fall", [], []⟩,
        ⟨3, [sampleSection], 2026, "Fall", [], []⟩] emptyStore [] =
      ((saveCommit [] [] emptyStore [] [sampleSection] 2026 "Fall" [] []).2.1,
       (saveCommit [] [] emptyStore [] [sampleSection] 2026 "Fall" [] []).2.2, 1) ∧
    alGet (runQueue [] [] 3 [⟨1, [], 2026, "Fall", [], []⟩, ⟨2, [], 2026, "Fall", [], []⟩,
        ⟨3, [sampleSection], 2026, "Fall", [], []⟩] emptyStore []).1.files
      (FName.sections 2026 "Fall") =
      some ⟨.parsed (Val.sections [sampleSection]), emptyStore.clock + 1⟩ := by
  have h := serializer_coalescing.2 emptyStore [] 2026 "Fall" [] [] [sampleSection]
    [] [] [] [] [] []
  exact ⟨h.1, h.2 rfl⟩

/-- C5: the batch built by a save contains the primary sections document
plus exactly the aggregates whose recomputed content differs from the old
one; an aggregate whose recomputed content is deep-equal to the old is
omitted entirely, so its stored document keeps its value and its
version. -/
theorem aggregate_skip (faults rfaults : List FName) (st : Store) (cache : Cache)
    (ss : List Section) (year : Nat) (sem : String)
    (instrs : List Instructor) (courses : List Course) :
    ((batchEntries ss year sem
        (if instrChanged (termKey year sem) ss instrs
         then some (updatedInstructors (termKey year sem) ss instrs) else none)
        (if coursesChanged (termKey year sem) ss courses
         then some (updatedCourses (termKey year sem) ss courses) else none)).map Prod.fst =
      [FName.sections year sem]
        ++ (if instrChanged (termKey year sem) ss instrs then [FName.instructorsJson] else [])
        ++ (if coursesChanged (termKey year sem) ss courses then [FName.coursesJson] else [])) ∧
    (instrChanged (termKey year sem) ss instrs = false →
      alGet (saveCommit faults rfaults st cache ss year sem instrs courses).2.1.files
          FName.instructorsJson = alGet st.files FName.instructorsJson) ∧
    (coursesChanged (termKey year sem) ss courses = false →
      alGet (saveCommit faults rfaults st cache ss year sem instrs courses).2.1.files
          FName.coursesJson = alGet st.files FName.coursesJson) := by
  refine ⟨?_, ?_, ?_⟩
  · cases hI : instrChanged (termKey year sem) ss instrs <;>
      cases hC : coursesChanged (termKey year sem) ss courses <;>
        simp [batchEntries, sectionsFilename]
  · intro hI
    rw [saveCommit_store]
    refine batchWrite_frame faults rfaults st _ FName.instructorsJson ?_ (fun m => by simp)
    cases hC : coursesChanged (termKey year sem) ss courses <;>
      simp [batchEntries, sectionsFilename, hI, hC]
  · intro hC
    rw [saveCommit_store]
    refine batchWrite_frame faults rfaults st _ FName.coursesJson ?_ (fun m => by simp)
    cases hI : instrChanged (termKey year sem) ss instrs <;>
      simp [batchEntries, sectionsFilename, hI, hC]

/-- C5 witness: the instructor's 2026-Fall history already matches the
snapshot, so the instructors aggregate is skipped and its stored document
keeps value and version 77. -/
theorem aggregate_skip_witness :
    alGet (saveCommit [] [] skipStore [] [sampleSection] 2026 "Fall" [instAlice] []).2.1.files
        FName.instructorsJson = alGet skipStore.files FName.instructorsJson ∧
    instrChanged (termKey 2026 "Fall") [sampleSection] [instAlice] = false := by
  have h := aggregate_skip [] [] skipStore [] [sampleSection] 2026 "Fall" [instAlice] []
  exact ⟨h.2.1 (by decide), by decide⟩

/-- C6: resolving a conflict by Reload deletes the cached version of the
sections document, re-reads it, and replaces the in-memory sections with
exactly the on-disk content (whatever edits were pending in memory are
not consulted), re-priming the cache with the on-disk version. -/
theorem reload_discards_local_edits (st : Store) (cache : Cache) (year : Nat) (sem : String)
    (ss : List Section) (m : Nat)
    (hconf : st.configured = true)
    (hfile : alGet st.files (FName.sections year sem) =
      some ⟨.parsed (Val.sections ss), m⟩) :
    handleConflictReload st cache year sem =
      (ss, alSet (alDel cache (FName.sections year sem)) (FName.sections year sem) m) ∧
    alGet (handleConflictReload st cache year sem).2 (FName.sections year sem) = some m := by
  have hread : readHandler st (FName.sections year sem) = ⟨some (Val.sections ss), m⟩ := by
    simp [readHandler, hconf, hfile]
  have h1 : handleConflictReload st cache year sem =
      (ss, alSet (alDel cache (FName.sections year sem)) (FName.sections year sem) m) := by
    simp [handleConflictReload, loadSectionsC, readFileC, refreshTimestampC,
      sectionsFilename, hread, Val.asSections]
  refine ⟨h1, ?_⟩
  rw [h1]
  simp [alGet_alSet]

/-- C6 witness: reloading against a store whose sections document holds
`[sampleSection]` at version 42, starting from a cache with a stale entry
and pending local edits elsewhere in memory. -/
theorem reload_discards_local_edits_witness :
    handleConflictReload reloadStore [(FName.sections 2026 "Fall", 7), (FName.yearsJson, 3)]
        2026 "Fall" =
      ([sampleSection],
        alSet (alDel [(FName.sections 2026 "Fall", 7), (FName.yearsJson, 3)]
          (FName.sections 2026 "Fall")) (FName.sections 2026 "Fall") 42) := by
  have h := reload_discards_local_edits reloadStore
    [(FName.sections 2026 "Fall", 7), (FName.yearsJson, 3)] 2026 "Fall"
    [sampleSection] 42 rfl (by decide)
  exact h.1

/-- C7: each recomputed aggregate agrees with the old one on every field
and on every term key other than the current one, and holds exactly the
freshly computed entry list under the current term key. -/
theorem aggregate_frame (tk : String) (ss : List Section)
    (instrs : List Instructor) (courses : List Course) :
    List.Forall₂ (fun inst inst' =>
      inst'.id = inst.id ∧ inst'.name = inst.name ∧
      inst'.abbreviation = inst.abbreviation ∧
      alGet inst'.history tk = some (instructorEntries ss inst) ∧
      ∀ k, k ≠ tk → alGet inst'.history k = alGet inst.history k)
      instrs (updatedInstructors tk ss instrs) ∧
    List.Forall₂ (fun course course' =>
      course'.id = course.id ∧ course'.title = course.title ∧
      course'.abbreviation = course.abbreviation ∧
      alGet course'.history tk = some (courseEntries ss course) ∧
      ∀ k, k ≠ tk → alGet course'.history k = alGet course.history k)
      courses (updatedCourses tk ss courses) := by
  constructor
  · induction instrs with
    | nil => exact List.Forall₂.nil
    | cons a t ih =>
      refine List.Forall₂.cons ⟨rfl, rfl, rfl, ?_, ?_⟩ ih
      · simp [alGet_alSet]
      · intro k hk
        rw [alGet_alSet, if_neg (Ne.symm hk)]
  · induction courses with
    | nil => exact List.Forall₂.nil
    | cons a t ih =>
      refine List.Forall₂.cons ⟨rfl, rfl, rfl, ?_, ?_⟩ ih
      · simp [alGet_alSet]
      · intro k hk
        rw [alGet_alSet, if_neg (Ne.symm hk)]

/-- C7 witness: updating Bob's ledger for 2026-Fall leaves his 2025-Fall
entry untouched and installs the freshly computed (empty) 2026-Fall
list. -/
theorem aggregate_frame_witness :
    alGet ((updatedInstructors "2026-Fall" [] [instBob]).headI.history) "2025-Fall" =
      alGet instBob.history "2025-Fall" ∧
    alGet ((updatedInstructors "2026-Fall" [] [instBob]).headI.history) "2026-Fall" =
      some (instructorEntries [] instBob) := by
  have h := (aggregate_frame "2026-Fall" [] [instBob] []).1
  rcases h with _ | ⟨⟨-, -, -, hcur, hframe⟩, -⟩
  exact ⟨hframe "2025-Fall" (by decide), hcur⟩

/-- C10: the version cache changes only on success — a read that falls
back to the default leaves it untouched while a successful read records
the observed version; a conditional write that conflicts throws before
touching it and a failed write leaves it untouched, while a successful
write records the returned version; a force-write behaves likewise; and
a batch save throws before touching it on failure while on success it
folds in exactly the returned timestamps. -/
theorem cache_updated_only_on_success :
    (∀ (st : Store) (cache : Cache) (name : FName) (fb : Val),
      (readHandler st name).data = none → readFileC st cache name fb = (fb, cache)) ∧
    (∀ (st : Store) (cache : Cache) (name : FName) (fb v : Val) (m : Nat),
      readHandler st name = ⟨some v, m⟩ →
      readFileC st cache name fb = (v, alSet cache name m)) ∧
    (∀ (faults : List FName) (st : Store) (cache : Cache) (name : FName) (d : Val),
      ((writeHandler faults st name d ((alGet cache name).getD 0)).1.conflict = true →
        (writeFileC faults st cache name d).1 =
          .error (writeHandler faults st name d ((alGet cache name).getD 0)).1.currentData ∧
        (writeFileC faults st cache name d).2.2 = cache) ∧
      ((writeHandler faults st name d ((alGet cache name).getD 0)).1.conflict = false →
        (writeHandler faults st name d ((alGet cache name).getD 0)).1.success = false →
        (writeFileC faults st cache name d).2.2 = cache) ∧
      ((writeHandler faults st name d ((alGet cache name).getD 0)).1.conflict = false →
        (writeHandler faults st name d ((alGet cache name).getD 0)).1.success = true →
        (writeFileC faults st cache name d).2.2 =
          alSet cache name
            (writeHandler faults st name d ((alGet cache name).getD 0)).1.lastModified)) ∧
    (∀ (faults : List FName) (st : Store) (cache : Cache) (name : FName) (d : Val),
      ((writeHandler faults st name d 0).1.success = true →
        (forceWriteFileC faults st cache name d).2 =
          alSet cache name (writeHandler faults st name d 0).1.lastModified) ∧
      ((writeHandler faults st name d 0).1.success = false →
        (forceWriteFileC faults st cache name d).2 = cache)) ∧
    (∀ (faults rfaults : List FName) (st : Store) (cache : Cache) (ss : List Section)
      (year : Nat) (sem : String) (iOpt : Option (List Instructor))
      (cOpt : Option (List Course)),
      ((batchWriteHandler faults rfaults st (batchEntries ss year sem iOpt cOpt)).1.success =
          false →
        (batchSaveSectionsAndHistoryC faults rfaults st cache ss year sem iOpt cOpt).1 =
          .error "Batch write failed" ∧
        (batchSaveSectionsAndHistoryC faults rfaults st cache ss year sem iOpt cOpt).2.2 =
          cache) ∧
      ((batchWriteHandler faults rfaults st (batchEntries ss year sem iOpt cOpt)).1.success =
          true →
        (batchSaveSectionsAndHistoryC faults rfaults st cache ss year sem iOpt cOpt).2.2 =
          (batchWriteHandler faults rfaults st
              (batchEntries ss year sem iOpt cOpt)).1.timestamps.foldl
            (fun c p => alSet c p.1 p.2) cache)) := by
  refine ⟨?_, ?_, ?_, ?_, ?_⟩
  · intro st cache name fb h
    simp [readFileC, h]
  · intro st cache name fb v m h
    simp [readFileC, h]
  · intro faults st cache name d
    refine ⟨?_, ?_, ?_⟩
    · intro h
      constructor <;> simp [writeFileC, h]
    · intro h hs
      simp [writeFileC, h, hs]
    · intro h hs
      simp [writeFileC, h, hs]
  · intro faults st cache name d
    constructor <;> intro h <;> simp [forceWriteFileC, h]
  · intro faults rfaults st cache ss year sem iOpt cOpt
    constructor
    · intro h
      constructor <;> simp [batchSaveSectionsAndHistoryC, h]
    · intro h
      simp [batchSaveSectionsAndHistoryC, h]

/-- C10 witness: a fallback read leaves the cache untouched, and a
conflicting conditional write leaves the stale baseline in place. -/
theorem cache_updated_only_on_success_witness :
    readFileC emptyStore [(FName.yearsJson, 5)] (FName.other "a.json") (Val.raw "D") =
      (Val.raw "D", [(FName.yearsJson, 5)]) ∧
    (writeFileC [] conflictStore [(FName.other "a.json", 10)] (FName.other "a.json")
        (Val.raw "Y")).2.2 = [(FName.other "a.json", 10)] := by
  have h := cache_updated_only_on_success
  exact ⟨h.1 emptyStore [(FName.yearsJson, 5)] (FName.other "a.json") (Val.raw "D") (by decide),
    ((h.2.2.1 [] conflictStore [(FName.other "a.json", 10)] (FName.other "a.json")
      (Val.raw "Y")).1 (by decide)).2⟩

end Sched
